import Mathlib

/-!
Verification of the Tableau workbook metadata extractor
(`tableau_metadata_extractor.py`).

The development shallowly embeds the pure core of the program:

* `clean_calculation_formula` — the formula resolver: three successive
  regex-substitution passes over an immutable character list, with a
  substitution counter and a status classification;
* `Elem` — the parsed XML document tree, with ElementTree-style
  descendant traversal (`findallDesc`, document preorder) and
  attribute access (`getAttr`, with-default `getAttrD`);
* `extract_all_data` — the per-workbook metadata extractor
  (calculation-id map, connections, fields, worksheet-usage pairs);
* `build_final_output` — the row builder producing the final flat
  report rows with sequential column ids.

Python dictionaries are embedded as association lists with
first-match lookup (`dictGet`) and replace-or-append update
(`dictInsert`), which models insertion-ordered dicts with unique keys.
Machine strings are Lean `String`s; regular-expression scanning is
embedded as explicit left-to-right matchers over `List Char` with the
exact greedy semantics of the three patterns used by the source.
-/

set_option autoImplicit false

namespace Tableau

/-! ### Association lists: the embedding of Python dicts -/

/-- First-match lookup, the embedding of `d[k]` / `d.get(k)`. -/
def dictGet {α : Type} : List (String × α) → String → Option α
  | [], _ => none
  | p :: t, k => if p.1 = k then some p.2 else dictGet t k

/-- Replace-in-place when the key exists, append otherwise: the
embedding of `d[k] = v` on an insertion-ordered dict. -/
def dictInsert {α : Type} : List (String × α) → String → α → List (String × α)
  | [], k, v => [(k, v)]
  | p :: t, k, v => if p.1 = k then (k, v) :: t else p :: dictInsert t k v

/-! ### The formula resolver (`clean_calculation_formula`) -/

/-- The opening-brace character, written numerically. -/
def lbrace : Char := Char.ofNat 123

/-- The closing-brace character, written numerically. -/
def rbrace : Char := Char.ofNat 125

/-- Greedy maximal run of decimal digits, the embedding of a leading
greedy match of a digit character class. -/
def takeDigits : List Char → List Char × List Char
  | [] => ([], [])
  | c :: cs =>
    if c.isDigit then ((takeDigits cs).1.cons c, (takeDigits cs).2) else ([], c :: cs)

/-- Strip a literal from the front of a character list; `none` when
the list does not start with the literal. -/
def dropLit : List Char → List Char → Option (List Char)
  | [], s => some s
  | _ :: _, [] => none
  | p :: ps, c :: cs => if c = p then dropLit ps cs else none

/-- The literal head of the first reference syntax. -/
def calcLit : List Char := ("[Calculation_").data

/-- Match the first reference syntax (a bracketed `Calculation_` token
followed by one or more digits) at the head of the input; on success
return the digit group and the remainder after the match. -/
def matchCalcAt (s : List Char) : Option (List Char × List Char) :=
  match dropLit calcLit s with
  | none => none
  | some t =>
    match takeDigits t with
    | ([], _) => none
    | (d :: ds, r) =>
      match r with
      | ']' :: rest => some (d :: ds, rest)
      | _ => none

/-- Match the second reference syntax (an at-sign, an opening brace,
one or more digits, a closing brace) at the head of the input. -/
def matchAtAt (s : List Char) : Option (List Char × List Char) :=
  match s with
  | a :: b :: t =>
    if a = '@' ∧ b = lbrace then
      match takeDigits t with
      | (d :: ds, r) =>
        match r with
        | c :: rest => if c = rbrace then some (d :: ds, rest) else none
        | [] => none
      | ([], _) => none
    else none
  | _ => none

/-- Match the third reference syntax (a bracketed bare numeric id of
at least ten digits) at the head of the input. -/
def matchLongAt (s : List Char) : Option (List Char × List Char) :=
  match s with
  | '[' :: t =>
    match takeDigits t with
    | (ds, ']' :: rest) => if 10 ≤ ds.length then some (ds, rest) else none
    | _ => none
  | _ => none

/-- The full text matched by `matchCalcAt` on digit group `ds`. -/
def sliceCalc (ds : List Char) : List Char := calcLit ++ (ds ++ [']'])

/-- The full text matched by `matchAtAt` on digit group `ds`. -/
def sliceAt (ds : List Char) : List Char := '@' :: lbrace :: (ds ++ [rbrace])

/-- The full text matched by `matchLongAt` on digit group `ds`. -/
def sliceLong (ds : List Char) : List Char := '[' :: (ds ++ [']'])

/-- One `re.sub` pass with a replacement function: scan left to right;
at a match whose digit group is a key of the map, emit the bracketed
mapped caption and count one replacement; at a match whose digit group
is absent from the map, emit the matched text unchanged; otherwise
advance one character.  Scanning resumes after each match.  The fuel
argument only drives the recursion; callers pass the input length,
which the lemmas below show is always sufficient. -/
def reSubF (mt : List Char → Option (List Char × List Char)) (slice : List Char → List Char)
    (m : List (String × String)) : Nat → List Char → List Char × Nat
  | 0, s => (s, 0)
  | _ + 1, [] => ([], 0)
  | fuel + 1, c :: cs =>
    match mt (c :: cs) with
    | some (ds, rest) =>
      let p := reSubF mt slice m fuel rest
      match dictGet m (String.mk ds) with
      | some cap => ('[' :: (cap.data ++ (']' :: p.1)), p.2 + 1)
      | none => (slice ds ++ p.1, p.2)
    | none =>
      let p := reSubF mt slice m fuel cs
      (c :: p.1, p.2)

/-- Existence of a match of `mt` at some position: the embedding of
`re.search` with a single pattern. -/
def searchF (mt : List Char → Option (List Char × List Char)) : List Char → Bool
  | [] => false
  | c :: cs => (mt (c :: cs)).isSome || searchF mt cs

/-- Occurrence of the first reference syntax somewhere in the string. -/
def searchCalcRef (s : List Char) : Bool := searchF matchCalcAt s

/-- Occurrence of the second reference syntax somewhere in the string. -/
def searchAtRef (s : List Char) : Bool := searchF matchAtAt s

/-- Occurrence of the third reference syntax somewhere in the string. -/
def searchLongRef (s : List Char) : Bool := searchF matchLongAt s

/-- The embedding of the source's alternation search for any remaining
reference: at each position the three syntaxes are tried in the
alternation order of the source pattern. -/
def searchAnyRef : List Char → Bool
  | [] => false
  | c :: cs =>
    (matchCalcAt (c :: cs)).isSome || (matchLongAt (c :: cs)).isSome ||
      (matchAtAt (c :: cs)).isSome || searchAnyRef cs

/-- The three substitution passes of the resolver in source order
(bracketed `Calculation_` ids, then brace-delimited ids, then bare
long numeric ids), with the total replacement count. -/
def cleanCore (raw : List Char) (m : List (String × String)) : List Char × Nat :=
  let p1 := reSubF matchCalcAt sliceCalc m raw.length raw
  let p2 := reSubF matchAtAt sliceAt m p1.1.length p1.1
  let p3 := reSubF matchLongAt sliceLong m p2.1.length p2.1
  (p3.1, p1.2 + p2.2 + p3.2)

/-- The formula resolver: empty input short-circuits with status
"No Formula"; otherwise the three passes run and the status is
classified from the replacement count and the residual-reference
searches on the original and on the cleaned string. -/
def clean_calculation_formula (raw_formula : String) (calc_map : List (String × String)) :
    String × String :=
  if raw_formula = "" then (raw_formula, ("No Formula"))
  else
    let p := cleanCore raw_formula.data calc_map
    let status := ("Success")
    let status :=
      if p.2 = 0 ∧ searchAnyRef raw_formula.data = true then ("Unresolved References")
      else status
    let status :=
      if 0 < p.2 ∧ searchAnyRef p.1 = true then ("Partially Resolved") else status
    (String.mk p.1, status)

/-! ### The parsed document tree -/

mutual
/-- A parsed XML element: tag, attributes, text content, children. -/
inductive Elem where
  | mk (tag : String) (attrs : List (String × String)) (text : Option String)
      (children : ElemList)

/-- A list of sibling elements. -/
inductive ElemList where
  | nil
  | cons (e : Elem) (t : ElemList)
end

/-- The tag of an element. -/
def Elem.tag : Elem → String
  | .mk t _ _ _ => t

/-- The attribute list of an element. -/
def Elem.attrs : Elem → List (String × String)
  | .mk _ a _ _ => a

/-- The text content of an element (`None` embedded as `none`). -/
def Elem.text : Elem → Option String
  | .mk _ _ x _ => x

/-- The children of an element. -/
def Elem.children : Elem → ElemList
  | .mk _ _ _ cs => cs

/-- Attribute lookup, the embedding of `e.get(k)`. -/
def Elem.getAttr (e : Elem) (k : String) : Option String :=
  dictGet e.attrs k

/-- Attribute lookup with default, the embedding of `e.get(k, d)`:
the default applies only when the attribute is absent. -/
def Elem.getAttrD (e : Elem) (k d : String) : String :=
  (e.getAttr k).getD d

mutual
/-- All proper descendants of an element in document (preorder)
order. -/
def Elem.descendants : Elem → List Elem
  | .mk _ _ _ cs => ElemList.preorderAll cs

/-- Preorder listing of a forest: each root followed by its
descendants. -/
def ElemList.preorderAll : ElemList → List Elem
  | .nil => []
  | .cons e t => e :: (Elem.descendants e ++ ElemList.preorderAll t)
end

/-- Build an `ElemList` from a `List Elem` (notation convenience for
concrete documents). -/
def elist : List Elem → ElemList
  | [] => .nil
  | e :: t => .cons e (elist t)

/-- The embedding of `e.findall(".//tag")`: all descendants with the
given tag, in document order. -/
def findallDesc (tag : String) (e : Elem) : List Elem :=
  e.descendants.filter (fun d => d.tag = tag)

/-- The embedding of `e.find(".//tag")`: the first descendant with the
given tag, in document order. -/
def findDesc (tag : String) (e : Elem) : Option Elem :=
  (findallDesc tag e).head?

/-! ### The intermediate model -/

/-- One extracted field record. -/
structure Field where
  name : String
  caption : String
  datatype : String
  role : String
  datasource : String
  formula : String
  field_type : String
  deriving DecidableEq, Repr

/-- One worksheet-usage record. -/
structure UsagePair where
  field : String
  worksheet : String
  datasource : String
  deriving DecidableEq, Repr

/-- One per-datasource connection record; `aliasName` and `connClass`
embed the `alias` and `class` dict keys of the source. -/
structure ConnInfo where
  name : String
  aliasName : String
  connClass : String
  deriving DecidableEq, Repr

/-- The per-workbook intermediate model returned by
`extract_all_data`. -/
structure WorkbookData where
  fields : List Field
  calculations : List (String × String)
  field_worksheet_usage : List UsagePair
  connections : List (String × ConnInfo)
  deriving DecidableEq, Repr

/-! ### The metadata extractor (`extract_all_data`) -/

/-- Substring test, the embedding of Python's `needle in hay` on a
prefix position. -/
def startsWithCL : List Char → List Char → Bool
  | [], _ => true
  | _ :: _, [] => false
  | a :: as, b :: bs => a == b && startsWithCL as bs

/-- Substring test, the embedding of Python's `needle in hay`. -/
def isSubstr (needle : List Char) : List Char → Bool
  | [] => startsWithCL needle []
  | c :: cs => startsWithCL needle (c :: cs) || isSubstr needle cs

/-- The calculation-map write produced by one column element carrying
a nested calculation: the id attribute of the first descendant
calculation element, mapped to the column's caption (name fallback);
no write when the id, or the caption and name, are empty or absent. -/
def calcWriteOfColumn (col : Elem) : Option (String × String) :=
  match findDesc ("calculation") col with
  | some ce =>
    let calc_id := ce.getAttrD ("id") ("")
    if calc_id ≠ "" then
      let caption := col.getAttrD ("caption") (col.getAttrD ("name") (""))
      if caption ≠ "" then some (calc_id, caption) else none
    else none
  | none => none

/-- The calculation-map write produced by one calculation element in
the standalone scan: its own id mapped to its own caption (name
fallback), skipped on empty id or empty caption-and-name. -/
def calcWriteOfCalc (ce : Elem) : Option (String × String) :=
  let calc_id := ce.getAttrD ("id") ("")
  if calc_id ≠ "" then
    let caption := ce.getAttrD ("caption") (ce.getAttrD ("name") (""))
    if caption ≠ "" then some (calc_id, caption) else none
  else none

/-- Apply an optional calculation-map write. -/
def applyWrite (m : List (String × String)) (w : Option (String × String)) :
    List (String × String) :=
  match w with
  | some p => dictInsert m p.1 p.2
  | none => m

/-- Resolved connection endpoint of a connection element: the nested
attribute-with-default reads of the source (`server`, defaulting to
`filename`, defaulting to `database`, defaulting to empty). -/
def connEndpoint (conn : Elem) : String :=
  conn.getAttrD ("server") (conn.getAttrD ("filename") (conn.getAttrD ("database") ("")))

/-- Field-type derivation for a column element: a nested calculation
element makes it a calculated field ("Table Calculation" when the
calculation's class attribute contains the substring "tableau");
otherwise role "measure" makes it a measure, upgraded to
"Aggregated Measure" on a non-empty aggregation attribute; otherwise
"Dimension". -/
def fieldTypeOf (col : Elem) : String :=
  match findDesc ("calculation") col with
  | some ce =>
    if isSubstr ("tableau").data (ce.getAttrD ("class") ("")).data then ("Table Calculation")
    else ("Calculated Field")
  | none =>
    if col.getAttr ("role") = some ("measure") then
      if col.getAttrD ("aggregation") ("") ≠ "" then ("Aggregated Measure") else ("Measure")
    else ("Dimension")

/-- Raw formula of a column element: the formula attribute of its
first descendant calculation element, empty when there is none. -/
def formulaOf (col : Elem) : String :=
  match findDesc ("calculation") col with
  | some ce => ce.getAttrD ("formula") ("")
  | none => ""

/-- The field record extracted from one column element of a
datasource. -/
def fieldOfColumn (ds_name : String) (col : Elem) : Field :=
  let field_name := col.getAttrD ("name") ("")
  { name := field_name
    caption := col.getAttrD ("caption") field_name
    datatype := col.getAttrD ("datatype") ("")
    role := col.getAttrD ("role") ("")
    datasource := ds_name
    formula := formulaOf col
    field_type := fieldTypeOf col }

/-- One step of the datasource pass: record the connection (when a
connection element exists), append the field records of all descendant
columns, and apply their calculation-map writes. -/
def dsStep (acc : List (String × ConnInfo) × List Field × List (String × String)) (ds : Elem) :
    List (String × ConnInfo) × List Field × List (String × String) :=
  let ds_name := ds.getAttrD ("name") ("")
  let ds_caption := ds.getAttrD ("caption") ds_name
  let conns :=
    match findDesc ("connection") ds with
    | some conn =>
      dictInsert acc.1 ds_name
        { name := connEndpoint conn, aliasName := ds_caption,
          connClass := conn.getAttrD ("class") ("") }
    | none => acc.1
  let cols := findallDesc ("column") ds
  let flds := acc.2.1 ++ cols.map (fieldOfColumn ds_name)
  let calcs := cols.foldl (fun m col => applyWrite m (calcWriteOfColumn col)) acc.2.2
  (conns, flds, calcs)

/-- One step of the standalone-calculation pass: append a synthetic
calculated field for a named calculation element not already present
among the fields. -/
def standaloneStep (fs : List Field) (ce : Elem) : List Field :=
  let calc_name := ce.getAttrD ("name") ("")
  if calc_name ≠ "" ∧ fs.any (fun f => f.name == calc_name) = false then
    fs ++ [{ name := calc_name
             caption := ce.getAttrD ("caption") calc_name
             datatype := ce.getAttrD ("datatype") ("")
             role := ce.getAttrD ("role") ("")
             datasource := ""
             formula := ce.getAttrD ("formula") ("")
             field_type := ("Calculated Field") }]
  else fs

/-- Strip one matching pair of surrounding square brackets. -/
def stripBrackets (s : String) : String :=
  if s.data.head? = some '[' ∧ s.data.getLast? = some ']' then
    String.mk (s.data.drop 1).dropLast
  else s

/-- The usage pairs collected from one worksheet element: explicit
datasource-dependency columns first, then encoding column references
(text content, falling back to the column attribute, with surrounding
brackets stripped). -/
def usagesOfWorksheet (ws : Elem) : List UsagePair :=
  let ws_name := ws.getAttrD ("name") ("")
  let dep_pairs :=
    (findallDesc ("datasource-dependencies") ws).foldl (fun us dep =>
      let dep_ds := dep.getAttrD ("datasource") ("")
      (findallDesc ("column") dep).foldl (fun us col =>
        let field_name := col.getAttrD ("name") ("")
        if field_name ≠ "" then us ++ [⟨field_name, ws_name, dep_ds⟩] else us) us) []
  (findallDesc ("encoding") ws).foldl (fun us enc =>
    (findallDesc ("column") enc).foldl (fun us enc_col =>
      let t := (enc_col.text).getD ("")
      let field_ref := if t ≠ "" then t else enc_col.getAttrD ("column") ("")
      if field_ref ≠ "" then us ++ [⟨stripBrackets field_ref, ws_name, ""⟩] else us) us)
    dep_pairs

/-- First-occurrence deduplication on the (field, worksheet) composite
key, with the already-seen key set accumulated. -/
def dedupUsageGo (seen : List (String × String)) : List UsagePair → List UsagePair
  | [] => []
  | u :: rest =>
    if (u.field, u.worksheet) ∈ seen then dedupUsageGo seen rest
    else u :: dedupUsageGo ((u.field, u.worksheet) :: seen) rest

/-- The duplicate-removal step of the extractor. -/
def dedupUsage (us : List UsagePair) : List UsagePair :=
  dedupUsageGo [] us

/-- The per-workbook metadata extractor: calculation-map passes over
all columns and all calculation elements, the datasource pass
(connections, fields, and repeated calculation-map writes), the
standalone-calculation pass, the worksheet-usage pass, and usage
deduplication.  The file-name argument is unused, as in the source. -/
def extract_all_data (root : Elem) (filename : String) : WorkbookData :=
  let _ := filename
  let m1 := (findallDesc ("column") root).foldl
    (fun m col => applyWrite m (calcWriteOfColumn col)) []
  let m2 := (findallDesc ("calculation") root).foldl
    (fun m ce => applyWrite m (calcWriteOfCalc ce)) m1
  let step3 := (findallDesc ("datasource") root).foldl dsStep ([], [], m2)
  let flds := (findallDesc ("calculation") root).foldl standaloneStep step3.2.1
  let usage := (findallDesc ("worksheet") root).foldl
    (fun us ws => us ++ usagesOfWorksheet ws) []
  { fields := flds
    calculations := step3.2.2
    field_worksheet_usage := dedupUsage usage
    connections := step3.1 }

/-! ### The row builder (`build_final_output`) -/

/-- One final output row; field names transliterate the source's
column headers (`columnId` is "Column ID", `fieldUsedInWorksheets` is
"Field Used in Worksheets", and so on). -/
structure Row where
  columnId : Nat
  columnName : String
  columnAlias : String
  fieldType : String
  connectionName : String
  connectionAlias : String
  datatype : String
  role : String
  calculationFormula : String
  originalCalculation : String
  calcCleanStatus : String
  fieldUsedInWorksheets : String
  worksheetName : String
  fileName : String
  deriving DecidableEq, Repr

/-- The worksheet-list index built by the row builder: field name to
the list of its usage worksheets, in usage order. -/
def addUsage (m : List (String × List String)) (f w : String) : List (String × List String) :=
  match dictGet m f with
  | some l => dictInsert m f (l ++ [w])
  | none => m ++ [(f, [w])]

/-- Fold of `addUsage` over the usage list, the embedding of the
`usage_by_field` dict construction. -/
def usageByField (us : List UsagePair) : List (String × List String) :=
  us.foldl (fun m u => addUsage m u.field u.worksheet) []

/-- Row emission for one field across its worksheet entries, threading
the sequential column id. -/
def rowsForWs (fn : String) (f : Field) (conn_name conn_alias cleaned status : String) :
    List String → Nat → List Row × Nat
  | [], i => ([], i)
  | w :: ws, i =>
    let p := rowsForWs fn f conn_name conn_alias cleaned status ws (i + 1)
    ({ columnId := i, columnName := f.name, columnAlias := f.caption,
       fieldType := f.field_type, connectionName := conn_name,
       connectionAlias := conn_alias, datatype := f.datatype, role := f.role,
       calculationFormula := cleaned, originalCalculation := f.formula,
       calcCleanStatus := status,
       fieldUsedInWorksheets := if w ≠ "" then ("Yes") else ("No"),
       worksheetName := w, fileName := fn } :: p.1, p.2)

/-- Row emission for one field: worksheet lookup (with the singleton
empty-worksheet default), connection resolution (empty name and
datasource-name alias when the datasource has no connection record),
and formula cleaning for fields that carry a formula. -/
def rowsForField (fn : String) (d : WorkbookData) (f : Field) (i : Nat) : List Row × Nat :=
  let worksheets := (dictGet (usageByField d.field_worksheet_usage) f.name).getD [("")]
  let ci := dictGet d.connections f.datasource
  let conn_name := match ci with | some c => c.name | none => ""
  let conn_alias := match ci with | some c => c.aliasName | none => f.datasource
  let pr :=
    if f.formula ≠ "" then clean_calculation_formula f.formula d.calculations
    else (("") , ("No Calculation"))
  let worksheets := if worksheets = [] then [("")] else worksheets
  rowsForWs fn f conn_name conn_alias pr.1 pr.2 worksheets i

/-- Row emission for the field list of one workbook. -/
def rowsForFields (fn : String) (d : WorkbookData) : List Field → Nat → List Row × Nat
  | [], i => ([], i)
  | f :: fs, i =>
    let p := rowsForField fn d f i
    let q := rowsForFields fn d fs p.2
    (p.1 ++ q.1, q.2)

/-- Row emission across all workbooks, threading the column id. -/
def buildRows : List (String × WorkbookData) → Nat → List Row × Nat
  | [], i => ([], i)
  | (fn, d) :: rest, i =>
    let p := rowsForFields fn d d.fields i
    let q := buildRows rest p.2
    (p.1 ++ q.1, q.2)

/-- The row builder: all workbooks in discovery order, column ids
starting at 1. -/
def build_final_output (all_workbook_data : List (String × WorkbookData)) : List Row :=
  (buildRows all_workbook_data 1).1

/-! ### Specification-side definitions

These definitions follow the wording of the specification (not the
source) and exist to be compared with the source-derived definitions
above. -/

/-- Modelled from the spec: "first of server/filename/database
attributes that is non-empty" — the first key in the list whose
attribute value is non-empty wins. -/
def firstNonEmptyAttr (e : Elem) : List String → String
  | [] => ""
  | k :: ks =>
    let v := e.getAttrD k ("")
    if v ≠ "" then v else firstNonEmptyAttr e ks

/-- First attribute of the list that is present on the element, even
with an empty value; empty when none is present.  This is the
behaviour of the source's nested attribute-default reads. -/
def firstPresentAttr (e : Elem) : List String → String
  | [] => ""
  | k :: ks =>
    match e.getAttr k with
    | some v => v
    | none => firstPresentAttr e ks

/-- Value of the last write of a key in a write sequence:
last-write-wins resolution. -/
def lastWrite : List (String × String) → String → Option String
  | [], _ => none
  | p :: t, k =>
    match lastWrite t k with
    | some v => some v
    | none => if p.1 = k then some p.2 else none

/-- The full calculation-map write sequence of the extractor, in
execution order: all columns bearing calculations (document order),
then all calculation elements (document order), then the datasource
columns bearing calculations again (document order). -/
def calcWrites (root : Elem) : List (String × String) :=
  (findallDesc ("column") root).filterMap calcWriteOfColumn ++
    (findallDesc ("calculation") root).filterMap calcWriteOfCalc ++
    (findallDesc ("datasource") root).foldl
      (fun l ds => l ++ (findallDesc ("column") ds).filterMap calcWriteOfColumn) []

/-- Digit groups of all matches of one reference syntax, at every
position of the string. -/
def refIdsF (mt : List Char → Option (List Char × List Char)) : List Char → List (List Char)
  | [] => []
  | c :: cs =>
    match mt (c :: cs) with
    | some (ds, _) => ds :: refIdsF mt cs
    | none => refIdsF mt cs

/-- All identifiers embedded in a formula under any of the three
reference syntaxes, as map keys. -/
def refIds (s : List Char) : List String :=
  (refIdsF matchCalcAt s ++ refIdsF matchAtAt s ++ refIdsF matchLongAt s).map String.mk

/-! ### Concrete documents and models used as test inputs -/

/-- Connection element whose server attribute is present but empty
while the filename attribute is non-empty. -/
def c4conn : Elem :=
  Elem.mk ("connection") [(("server"), ("")), (("filename"), ("data.csv"))] none (elist [])

/-- Document with a datasource column (caption "A") carrying
calculation id "123", followed by a standalone calculation declaration
with the same id and caption "B" later in document order. -/
def c5doc : Elem :=
  Elem.mk ("workbook") [] none (elist
    [Elem.mk ("datasource") [(("name"), ("ds"))] none (elist
      [Elem.mk ("column") [(("name"), ("[c]")), (("caption"), ("A"))] none (elist
        [Elem.mk ("calculation") [(("id"), ("123")), (("formula"), ("1+1"))] none
          (elist [])])]),
     Elem.mk ("calculation") [(("id"), ("123")), (("caption"), ("B")), (("name"), ("calcB"))]
       none (elist [])])

/-- Column element with role "measure" and a present-but-empty
aggregation attribute. -/
def c7col : Elem :=
  Elem.mk ("column") [(("role"), ("measure")), (("aggregation"), (""))] none (elist [])

/-- Field bound to datasource "ds1". -/
def c9field : Field :=
  { name := "f1", caption := "f1", datatype := "", role := "", datasource := "ds1",
    formula := "", field_type := "Dimension" }

/-- Workbook model holding `c9field` and no connection record. -/
def c9data : WorkbookData :=
  { fields := [c9field], calculations := [], field_worksheet_usage := [], connections := [] }

/-- The single row the builder emits for `c9field` in `c9data`. -/
def c9row : Row :=
  { columnId := 1, columnName := "f1", columnAlias := "f1", fieldType := "Dimension",
    connectionName := "", connectionAlias := "ds1", datatype := "", role := "",
    calculationFormula := "", originalCalculation := "", calcCleanStatus := "No Calculation",
    fieldUsedInWorksheets := "No", worksheetName := "", fileName := "wb.twb" }

/-- Workbook model with one field used in worksheets "A" and "B". -/
def c10data : WorkbookData :=
  { fields := [{ name := "f2", caption := "f2", datatype := "", role := "",
                 datasource := "", formula := "", field_type := "Dimension" }]
    calculations := []
    field_worksheet_usage :=
      [⟨"f2", "A", ""⟩, ⟨"f2", "B", ""⟩, ⟨"ghost", "A", ""⟩]
    connections := [] }

/-- The first row the builder emits for `c10data`. -/
def c10row : Row :=
  { columnId := 1, columnName := "f2", columnAlias := "f2", fieldType := "Dimension",
    connectionName := "", connectionAlias := "", datatype := "", role := "",
    calculationFormula := "", originalCalculation := "", calcCleanStatus := "No Calculation",
    fieldUsedInWorksheets := "Yes", worksheetName := "A", fileName := "wb2.twb" }

/-! ### Dictionary and write-sequence lemmas -/

theorem dictGet_dictInsert {α : Type} (m : List (String × α)) (a k : String) (b : α) :
    dictGet (dictInsert m a b) k = if a = k then some b else dictGet m k := by
  induction m with
  | nil => simp [dictGet, dictInsert]
  | cons p t ih =>
    by_cases hpa : p.1 = a
    · by_cases hak : a = k <;> simp [dictInsert, dictGet, hpa, hak]
    · by_cases hak : a = k <;> by_cases hpk : p.1 = k <;>
        simp_all [dictInsert, dictGet]

theorem lastWrite_append (a b : List (String × String)) (k : String) :
    lastWrite (a ++ b) k =
      match lastWrite b k with
      | some v => some v
      | none => lastWrite a k := by
  induction a with
  | nil => cases h : lastWrite b k <;> simp [lastWrite, h]
  | cons p t ih => cases h : lastWrite b k <;> simp_all [lastWrite]

theorem dictGet_foldl_insert (ps : List (String × String)) (m0 : List (String × String))
    (k : String) :
    dictGet (ps.foldl (fun m p => dictInsert m p.1 p.2) m0) k =
      match lastWrite ps k with
      | some v => some v
      | none => dictGet m0 k := by
  induction ps generalizing m0 with
  | nil => simp [lastWrite]
  | cons p t ih =>
    simp only [List.foldl_cons, ih, lastWrite]
    cases h : lastWrite t k
    · by_cases hpk : p.1 = k <;> simp [h, hpk, dictGet_dictInsert]
    · simp [h]

theorem foldl_applyWrite {β : Type} (l : List β) (g : β → Option (String × String))
    (m0 : List (String × String)) :
    l.foldl (fun m x => applyWrite m (g x)) m0 =
      (l.filterMap g).foldl (fun m p => dictInsert m p.1 p.2) m0 := by
  induction l generalizing m0 with
  | nil => rfl
  | cons x t ih =>
    rw [List.foldl_cons, List.filterMap_cons]
    cases h : g x with
    | none => exact ih m0
    | some p => exact ih (dictInsert m0 p.1 p.2)

theorem foldl_dsStep_calcs (dss : List Elem)
    (acc : List (String × ConnInfo) × List Field × List (String × String)) :
    (dss.foldl dsStep acc).2.2 =
      dss.foldl
        (fun m ds => (findallDesc ("column") ds).foldl
          (fun m col => applyWrite m (calcWriteOfColumn col)) m) acc.2.2 := by
  induction dss generalizing acc with
  | nil => rfl
  | cons ds t ih => simp [List.foldl_cons, ih, dsStep]

theorem foldl_applyWrite_nested (dss : List Elem) (m0 : List (String × String)) :
    dss.foldl
        (fun m ds => (findallDesc ("column") ds).foldl
          (fun m col => applyWrite m (calcWriteOfColumn col)) m) m0 =
      ((dss.map (fun ds => (findallDesc ("column") ds).filterMap calcWriteOfColumn)).flatten).foldl
        (fun m p => dictInsert m p.1 p.2) m0 := by
  induction dss generalizing m0 with
  | nil => rfl
  | cons ds t ih =>
    rw [List.foldl_cons, ih, foldl_applyWrite, List.map_cons, List.flatten_cons,
      List.foldl_append]

theorem foldl_append_init {β γ : Type} (l : List β) (g : β → List γ) (init : List γ) :
    l.foldl (fun acc x => acc ++ g x) init = init ++ (l.map g).flatten := by
  induction l generalizing init with
  | nil => simp
  | cons x t ih => simp [ih]

/-- Claim C5 (amended): the calculation map recorded by
`extract_all_data` resolves every identifier by last-write-wins over
the extractor's actual write sequence `calcWrites`: first all columns
bearing calculations (document order), then all calculation
declarations (document order), then the datasource columns bearing
calculations again (document order).  In particular a datasource
column's caption overwrites a standalone declaration that occurs later
in the document, so the winner is NOT always the declaration occurring
latest in document traversal order over the merged column/standalone
sequence (see the counterexample). -/
theorem c5_calc_map_last_write (root : Elem) (filename : String) (k : String) :
    dictGet (extract_all_data root filename).calculations k =
      lastWrite (calcWrites root) k := by
  simp only [extract_all_data, calcWrites]
  rw [foldl_append_init, List.nil_append, foldl_dsStep_calcs, foldl_applyWrite_nested,
    dictGet_foldl_insert, foldl_applyWrite, dictGet_foldl_insert, foldl_applyWrite,
    dictGet_foldl_insert, lastWrite_append, lastWrite_append]
  cases lastWrite
      ((findallDesc ("datasource") root).map
        (fun ds => (findallDesc ("column") ds).filterMap calcWriteOfColumn)).flatten k <;>
    cases lastWrite ((findallDesc ("calculation") root).filterMap calcWriteOfCalc) k <;>
    cases lastWrite ((findallDesc ("column") root).filterMap calcWriteOfColumn) k <;>
    simp [dictGet]

/-! ### Row-builder lemmas -/

theorem rowsForWs_ids (fn : String) (f : Field) (cn ca cf st : String) :
    ∀ (ws : List String) (i : Nat),
      ((rowsForWs fn f cn ca cf st ws i).1.map Row.columnId =
        List.range' i (rowsForWs fn f cn ca cf st ws i).1.length) ∧
      (rowsForWs fn f cn ca cf st ws i).2 = i + (rowsForWs fn f cn ca cf st ws i).1.length := by
  intro ws
  induction ws with
  | nil => intro i; simp [rowsForWs, List.range']
  | cons w t ih =>
    intro i
    obtain ⟨ih1, ih2⟩ := ih (i + 1)
    refine ⟨?_, ?_⟩
    · simp only [rowsForWs, List.map_cons, List.length_cons, ih1, List.range']
    · simp only [rowsForWs, List.length_cons, ih2]
      omega

theorem rowsForWs_mem (fn : String) (f : Field) (cn ca cf st : String) :
    ∀ (ws : List String) (i : Nat) (r : Row),
      r ∈ (rowsForWs fn f cn ca cf st ws i).1 →
      r.columnName = f.name ∧ r.connectionName = cn ∧ r.connectionAlias = ca ∧
        r.fileName = fn := by
  intro ws
  induction ws with
  | nil => intro i r h; simp [rowsForWs] at h
  | cons w t ih =>
    intro i r h
    simp only [rowsForWs, List.mem_cons] at h
    rcases h with h | h
    · subst h; exact ⟨rfl, rfl, rfl, rfl⟩
    · exact ih (i + 1) r h

theorem rowsForWs_map_ws_used (fn : String) (f : Field) (cn ca cf st : String) :
    ∀ (ws : List String) (i : Nat),
      (rowsForWs fn f cn ca cf st ws i).1.map
          (fun r => (r.worksheetName, r.fieldUsedInWorksheets)) =
        ws.map (fun w => (w, if w ≠ "" then ("Yes") else ("No"))) := by
  intro ws
  induction ws with
  | nil => intro i; simp [rowsForWs]
  | cons w t ih => intro i; simp only [rowsForWs, List.map_cons, ih (i + 1)]

theorem dictGet_append_single {α : Type} (m : List (String × α)) (f k : String) (v : α) :
    dictGet (m ++ [(f, v)]) k =
      match dictGet m k with
      | some x => some x
      | none => if f = k then some v else none := by
  induction m with
  | nil => simp [dictGet]
  | cons p t ih =>
    by_cases hpk : p.1 = k <;> simp [dictGet, hpk, ih]

theorem dictGet_addUsage (m : List (String × List String)) (f w k : String) :
    dictGet (addUsage m f w) k =
      if f = k then
        match dictGet m f with
        | some l => some (l ++ [w])
        | none => some [w]
      else dictGet m k := by
  unfold addUsage
  cases h : dictGet m f with
  | some l =>
    rw [dictGet_dictInsert]
  | none =>
    rw [dictGet_append_single]
    by_cases hfk : f = k
    · subst hfk; simp [h]
    · simp only [if_neg hfk]
      cases hk : dictGet m k <;> simp [hk]

theorem dictGet_usageByField_aux (name : String) :
    ∀ (us : List UsagePair) (acc : List (String × List String)),
      dictGet (us.foldl (fun m u => addUsage m u.field u.worksheet) acc) name =
        (let F := (us.filter (fun u => u.field = name)).map (fun u => u.worksheet)
         match dictGet acc name with
         | some l0 => some (l0 ++ F)
         | none => if F = [] then none else some F) := by
  intro us
  induction us with
  | nil => intro acc; cases h : dictGet acc name <;> simp [h]
  | cons u t ih =>
    intro acc
    simp only [List.foldl_cons, ih (addUsage acc u.field u.worksheet), dictGet_addUsage,
      List.filter_cons]
    by_cases hu : u.field = name
    · subst hu
      simp only [if_pos rfl]
      cases h : dictGet acc u.field <;> simp [h]
    · simp [hu]


theorem rowsForField_ids (fn : String) (d : WorkbookData) (f : Field) (i : Nat) :
    ((rowsForField fn d f i).1.map Row.columnId =
      List.range' i (rowsForField fn d f i).1.length) ∧
    (rowsForField fn d f i).2 = i + (rowsForField fn d f i).1.length := by
  simp only [rowsForField]
  exact rowsForWs_ids _ _ _ _ _ _ _ _

theorem rowsForFields_ids (fn : String) (d : WorkbookData) :
    ∀ (fs : List Field) (i : Nat),
      ((rowsForFields fn d fs i).1.map Row.columnId =
        List.range' i (rowsForFields fn d fs i).1.length) ∧
      (rowsForFields fn d fs i).2 = i + (rowsForFields fn d fs i).1.length := by
  intro fs
  induction fs with
  | nil => intro i; simp [rowsForFields]
  | cons f t ih =>
    intro i
    obtain ⟨h1, h2⟩ := rowsForField_ids fn d f i
    obtain ⟨ih1, ih2⟩ := ih (rowsForField fn d f i).2
    rw [h2] at ih1 ih2
    constructor
    · simp only [rowsForFields, List.map_append, List.length_append, h1, ih1, h2,
        List.range'_append_1]
      rw [Nat.add_comm]
    · simp only [rowsForFields, List.length_append, h2, ih2]
      omega

theorem buildRows_ids :
    ∀ (l : List (String × WorkbookData)) (i : Nat),
      ((buildRows l i).1.map Row.columnId = List.range' i (buildRows l i).1.length) ∧
      (buildRows l i).2 = i + (buildRows l i).1.length := by
  intro l
  induction l with
  | nil => intro i; simp [buildRows]
  | cons p t ih =>
    intro i
    obtain ⟨h1, h2⟩ := rowsForFields_ids p.1 p.2 p.2.fields i
    obtain ⟨ih1, ih2⟩ := ih (rowsForFields p.1 p.2 p.2.fields i).2
    rw [h2] at ih1 ih2
    constructor
    · simp only [buildRows, List.map_append, List.length_append, h1, ih1, h2,
        List.range'_append_1]
      rw [Nat.add_comm]
    · simp only [buildRows, List.length_append, h2, ih2]
      omega

/-- Claim C3: the Column ID values of the rows produced by
`build_final_output` are exactly the sequence `1 .. N` in emission
order, where `N` is the total number of rows: positive, strictly
increasing by one, with no gaps or repeats, across all workbooks. -/
theorem c3_column_ids (all_workbook_data : List (String × WorkbookData)) :
    (build_final_output all_workbook_data).map Row.columnId =
      List.range' 1 (build_final_output all_workbook_data).length :=
  (buildRows_ids all_workbook_data 1).1

/-- Claim C6: for a field with zero worksheet-usage entries the
builder emits exactly one row, with empty worksheet name and the
"No" used marker; for a field with `k ≥ 1` usage entries it emits
exactly `k` rows, one per usage in order, each marked "Yes" exactly
when that row's worksheet name is non-empty. -/
theorem c6_rows_per_field (fn : String) (d : WorkbookData) (f : Field) (i : Nat) :
    (rowsForField fn d f i).1.map (fun r => (r.worksheetName, r.fieldUsedInWorksheets)) =
      (let us := (d.field_worksheet_usage.filter (fun u => u.field = f.name)).map
          (fun u => u.worksheet)
       if us = [] then [(("") , ("No"))]
       else us.map (fun w => (w, if w ≠ "" then ("Yes") else ("No")))) := by
  simp only [rowsForField, usageByField]
  rw [dictGet_usageByField_aux]
  simp only [dictGet]
  by_cases hF : (d.field_worksheet_usage.filter (fun u => u.field = f.name)).map
      (fun u => u.worksheet) = []
  · simp only [hF, if_pos rfl]
    rw [rowsForWs_map_ws_used]
    simp
  · simp only [if_neg hF]
    rw [rowsForWs_map_ws_used]
    simp [hF]

/-- Claim C9 (amended): when a field's datasource has no entry in the
connections map, every row emitted for the field carries an empty
Connection Name but a Connection Alias equal to the field's datasource
name (the source falls back to `field['datasource']`, not to the empty
string; see the counterexample to the claim as stated). -/
theorem c9_missing_connection (fn : String) (d : WorkbookData) (f : Field) (i : Nat)
    (h : dictGet d.connections f.datasource = none) :
    ∀ r ∈ (rowsForField fn d f i).1,
      r.connectionName = "" ∧ r.connectionAlias = f.datasource := by
  intro r hr
  simp only [rowsForField, h] at hr
  have hm := rowsForWs_mem fn f _ _ _ _ _ _ r hr
  exact ⟨hm.2.1, hm.2.2.1⟩

theorem rowsForFields_mem (fn : String) (d : WorkbookData) :
    ∀ (fs : List Field) (i : Nat) (r : Row),
      r ∈ (rowsForFields fn d fs i).1 →
      ∃ f ∈ fs, r.columnName = f.name ∧ r.fileName = fn := by
  intro fs
  induction fs with
  | nil => intro i r h; simp [rowsForFields] at h
  | cons f t ih =>
    intro i r h
    simp only [rowsForFields, List.mem_append] at h
    rcases h with h | h
    · refine ⟨f, List.mem_cons_self f t, ?_⟩
      simp only [rowsForField] at h
      have hm := rowsForWs_mem fn f _ _ _ _ _ _ r h
      exact ⟨hm.1, hm.2.2.2⟩
    · obtain ⟨g, hg, hrg⟩ := ih _ r h
      exact ⟨g, List.mem_cons_of_mem f hg, hrg⟩

theorem buildRows_mem :
    ∀ (l : List (String × WorkbookData)) (i : Nat) (r : Row),
      r ∈ (buildRows l i).1 →
      ∃ p ∈ l, ∃ f ∈ p.2.fields, r.columnName = f.name ∧ r.fileName = p.1 := by
  intro l
  induction l with
  | nil => intro i r h; simp [buildRows] at h
  | cons p t ih =>
    intro i r h
    obtain ⟨fn, d⟩ := p
    simp only [buildRows, List.mem_append] at h
    rcases h with h | h
    · obtain ⟨f, hf, hrf⟩ := rowsForFields_mem fn d d.fields i r h
      exact ⟨(fn, d), List.mem_cons_self _ _, f, hf, hrf⟩
    · obtain ⟨q, hq, hrest⟩ := ih _ r h
      exact ⟨q, List.mem_cons_of_mem _ hq, hrest⟩

/-- Claim C10: every row emitted by `build_final_output` carries a
Column Name equal to the name of some field of the workbook it was
emitted for (so a usage pair whose field name matches no extracted
field contributes no row). -/
theorem c10_rows_from_fields (all_workbook_data : List (String × WorkbookData)) (r : Row)
    (hr : r ∈ build_final_output all_workbook_data) :
    ∃ p ∈ all_workbook_data, ∃ f ∈ p.2.fields,
      r.columnName = f.name ∧ r.fileName = p.1 :=
  buildRows_mem all_workbook_data 1 r hr

/-! ### Matcher lemmas -/

theorem dropLit_spec : ∀ (p s t : List Char), dropLit p s = some t → s = p ++ t := by
  intro p
  induction p with
  | nil => intro s t h; simp [dropLit] at h; simp [h]
  | cons a as ih =>
    intro s t h
    cases s with
    | nil => simp [dropLit] at h
    | cons c cs =>
      simp only [dropLit] at h
      by_cases hca : c = a
      · rw [if_pos hca] at h
        subst hca
        simp [ih cs t h]
      · rw [if_neg hca] at h; exact absurd h (by simp)

theorem takeDigits_spec : ∀ (t : List Char), t = (takeDigits t).1 ++ (takeDigits t).2 := by
  intro t
  induction t with
  | nil => rfl
  | cons c cs ih =>
    by_cases hc : c.isDigit
    · simp only [takeDigits, if_pos hc, List.cons_append, List.cons.injEq, true_and]
      exact ih
    · simp [takeDigits, hc]

theorem matchCalcAt_spec (s ds rest : List Char) (h : matchCalcAt s = some (ds, rest)) :
    s = sliceCalc ds ++ rest := by
  unfold matchCalcAt at h
  split at h
  · exact absurd h (by simp)
  next t hd =>
    split at h
    · exact absurd h (by simp)
    next d dtl r htd =>
      split at h
      next rest2 =>
        simp only [Option.some.injEq, Prod.mk.injEq] at h
        obtain ⟨hds, hrest⟩ := h
        have hts := dropLit_spec calcLit s t hd
        have hsp := takeDigits_spec t
        rw [htd] at hsp
        subst hds hrest
        simp [sliceCalc, hts, hsp, List.append_assoc]
      · exact absurd h (by simp)

theorem matchAtAt_spec (s ds rest : List Char) (h : matchAtAt s = some (ds, rest)) :
    s = sliceAt ds ++ rest := by
  unfold matchAtAt at h
  split at h
  next a b t =>
    split at h
    next hab =>
      split at h
      next d dtl r htd =>
        split at h
        next c2 rtl =>
          split at h
          next hc2 =>
            simp only [Option.some.injEq, Prod.mk.injEq] at h
            obtain ⟨hds, hrest⟩ := h
            obtain ⟨ha, hb⟩ := hab
            have hsp := takeDigits_spec t
            rw [htd] at hsp
            subst ha hb hc2 hds hrest
            simp [sliceAt, hsp, List.append_assoc]
          · exact absurd h (by simp)
        · exact absurd h (by simp)
      · exact absurd h (by simp)
    · exact absurd h (by simp)
  · exact absurd h (by simp)

theorem matchLongAt_spec (s ds rest : List Char) (h : matchLongAt s = some (ds, rest)) :
    s = sliceLong ds ++ rest := by
  unfold matchLongAt at h
  split at h
  next t =>
    split at h
    next dg rest2 htd =>
      split at h
      next hlen =>
        simp only [Option.some.injEq, Prod.mk.injEq] at h
        obtain ⟨hds, hrest⟩ := h
        have hsp := takeDigits_spec t
        rw [htd] at hsp
        subst hds hrest
        simp [sliceLong, hsp, List.append_assoc]
      · exact absurd h (by simp)
    · exact absurd h (by simp)
  · exact absurd h (by simp)

theorem sliceCalc_ne_nil (ds : List Char) : sliceCalc ds ≠ [] := by
  have hlit : calcLit = '[' :: ("Calculation_").data := rfl
  simp [sliceCalc, hlit]

theorem sliceAt_ne_nil (ds : List Char) : sliceAt ds ≠ [] := by
  simp [sliceAt]

theorem sliceLong_ne_nil (ds : List Char) : sliceLong ds ≠ [] := by
  simp [sliceLong]

/-! ### Generic substitution-pass lemmas -/

theorem reSubF_no_match (mt : List Char → Option (List Char × List Char))
    (slice : List Char → List Char) (m : List (String × String)) :
    ∀ (fuel : Nat) (s : List Char), s.length ≤ fuel → searchF mt s = false →
      reSubF mt slice m fuel s = (s, 0) := by
  intro fuel
  induction fuel with
  | zero =>
    intro s hs _
    have : s = [] := List.eq_nil_of_length_eq_zero (Nat.le_zero.mp hs)
    subst this; rfl
  | succ fuel ih =>
    intro s hs hsearch
    cases s with
    | nil => rfl
    | cons c cs =>
      rw [searchF] at hsearch
      cases hmt0 : mt (c :: cs) with
      | some p => rw [hmt0] at hsearch; simp at hsearch
      | none =>
        rw [hmt0] at hsearch
        simp only [Option.isSome_none, Bool.false_or] at hsearch
        simp only [reSubF, hmt0]
        rw [ih cs (by simp at hs; omega) hsearch]

theorem reSubF_count_zero (mt : List Char → Option (List Char × List Char))
    (slice : List Char → List Char)
    (Hspec : ∀ s ds rest, mt s = some (ds, rest) → s = slice ds ++ rest)
    (Hpos : ∀ ds, slice ds ≠ []) (m : List (String × String)) :
    ∀ (fuel : Nat) (s : List Char), s.length ≤ fuel →
      (reSubF mt slice m fuel s).2 = 0 → (reSubF mt slice m fuel s).1 = s := by
  intro fuel
  induction fuel with
  | zero => intro s _ _; rfl
  | succ fuel ih =>
    intro s hs hz
    cases s with
    | nil => rfl
    | cons c cs =>
      cases hmt : mt (c :: cs) with
      | none =>
        simp only [reSubF, hmt] at hz ⊢
        rw [ih cs (by simp at hs; omega) hz]
      | some p =>
        obtain ⟨ds, rest⟩ := p
        have hsplit := Hspec _ _ _ hmt
        have hrest : rest.length ≤ fuel := by
          have hlen : (c :: cs).length = (slice ds).length + rest.length := by
            rw [hsplit, List.length_append]
          have hpos : 0 < (slice ds).length :=
            List.length_pos.mpr (Hpos ds)
          simp only [List.length_cons] at hs hlen
          omega
        cases hlook : dictGet m (String.mk ds) with
        | some cap =>
          simp only [reSubF, hmt, hlook] at hz
          exact absurd hz (by omega)
        | none =>
          simp only [reSubF, hmt, hlook] at hz ⊢
          rw [ih rest hrest hz, ← hsplit]

theorem reSubF_ne_nil (mt : List Char → Option (List Char × List Char))
    (slice : List Char → List Char) (Hpos : ∀ ds, slice ds ≠ [])
    (m : List (String × String)) (fuel : Nat) (s : List Char) (h : s ≠ []) :
    (reSubF mt slice m fuel s).1 ≠ [] := by
  cases fuel with
  | zero => exact h
  | succ fuel =>
    cases s with
    | nil => exact absurd rfl h
    | cons c cs =>
      cases hmt : mt (c :: cs) with
      | none => simp [reSubF, hmt]
      | some p =>
        obtain ⟨ds, rest⟩ := p
        cases hlook : dictGet m (String.mk ds) with
        | some cap => simp [reSubF, hmt, hlook]
        | none => simp [reSubF, hmt, hlook, Hpos ds]

theorem or_interleave (a b c d e f : Bool) :
    (a || (b || (c || (d || (e || f))))) = (a || (d || (b || (e || (c || f))))) := by
  cases a <;> cases b <;> cases c <;> cases d <;> cases e <;> cases f <;> rfl

theorem searchAnyRef_eq (s : List Char) :
    searchAnyRef s = (searchCalcRef s || (searchLongRef s || searchAtRef s)) := by
  induction s with
  | nil => rfl
  | cons c cs ih =>
    simp only [searchAnyRef, searchCalcRef, searchLongRef, searchAtRef, searchF,
      Bool.or_assoc] at ih ⊢
    rw [ih]
    exact or_interleave _ _ _ _ _ _

theorem searchAny_true_iff (s : List Char) :
    (searchCalcRef s = true ∨ searchAtRef s = true ∨ searchLongRef s = true) ↔
      searchAnyRef s = true := by
  rw [searchAnyRef_eq]
  simp only [Bool.or_eq_true]
  tauto

theorem cleanCore_count_zero (raw : List Char) (m : List (String × String))
    (h : (cleanCore raw m).2 = 0) : (cleanCore raw m).1 = raw := by
  simp only [cleanCore] at h ⊢
  have hz1 : (reSubF matchCalcAt sliceCalc m raw.length raw).2 = 0 := by omega
  have e1 : (reSubF matchCalcAt sliceCalc m raw.length raw).1 = raw :=
    reSubF_count_zero matchCalcAt sliceCalc matchCalcAt_spec sliceCalc_ne_nil m
      raw.length raw (le_refl _) hz1
  rw [e1] at h ⊢
  have hz2 : (reSubF matchAtAt sliceAt m raw.length raw).2 = 0 := by omega
  have e2 : (reSubF matchAtAt sliceAt m raw.length raw).1 = raw :=
    reSubF_count_zero matchAtAt sliceAt matchAtAt_spec sliceAt_ne_nil m
      raw.length raw (le_refl _) hz2
  rw [e2] at h ⊢
  have hz3 : (reSubF matchLongAt sliceLong m raw.length raw).2 = 0 := by omega
  exact reSubF_count_zero matchLongAt sliceLong matchLongAt_spec sliceLong_ne_nil m
    raw.length raw (le_refl _) hz3

theorem cleanCore_no_refs (raw : List Char) (m : List (String × String))
    (h : searchAnyRef raw = false) : cleanCore raw m = (raw, 0) := by
  rw [searchAnyRef_eq] at h
  simp only [Bool.or_eq_false_iff] at h
  obtain ⟨hc, hl, ha⟩ := h
  simp only [cleanCore]
  rw [reSubF_no_match matchCalcAt sliceCalc m raw.length raw (le_refl _) hc]
  rw [reSubF_no_match matchAtAt sliceAt m _ _ (le_refl _) ha]
  rw [reSubF_no_match matchLongAt sliceLong m _ _ (le_refl _) hl]
  rfl

theorem cleanCore_ne_nil (raw : List Char) (m : List (String × String)) (h : raw ≠ []) :
    (cleanCore raw m).1 ≠ [] := by
  simp only [cleanCore]
  apply reSubF_ne_nil _ _ sliceLong_ne_nil
  apply reSubF_ne_nil _ _ sliceAt_ne_nil
  apply reSubF_ne_nil _ _ sliceCalc_ne_nil
  exact h

theorem clean_status_spec (raw : String) (m : List (String × String)) (h : raw ≠ "") :
    clean_calculation_formula raw m =
      (String.mk (cleanCore raw.data m).1,
        if (cleanCore raw.data m).2 = 0 ∧ searchAnyRef raw.data = true
        then ("Unresolved References")
        else if 0 < (cleanCore raw.data m).2 ∧ searchAnyRef (cleanCore raw.data m).1 = true
        then ("Partially Resolved")
        else ("Success")) := by
  simp only [clean_calculation_formula, if_neg h]
  by_cases hc1 : (cleanCore raw.data m).2 = 0 ∧ searchAnyRef raw.data = true
  · by_cases hc2 :
        0 < (cleanCore raw.data m).2 ∧ searchAnyRef (cleanCore raw.data m).1 = true
    · exact absurd hc2.1 (by rw [hc1.1]; exact Nat.lt_irrefl 0)
    · simp [hc1, hc2]
  · by_cases hc2 :
        0 < (cleanCore raw.data m).2 ∧ searchAnyRef (cleanCore raw.data m).1 = true
    · simp [hc1, hc2]
    · simp [hc1, hc2]

theorem data_ne_nil (s : String) (h : s ≠ "") : s.data ≠ [] := by
  intro hd
  apply h
  cases s with
  | mk d =>
    have hd0 : d = [] := hd
    subst hd0
    rfl

theorem mk_ne_empty (x : List Char) (h : x ≠ []) : String.mk x ≠ "" := by
  intro he
  apply h
  have hdat : (String.mk x).data = ("" : String).data := by rw [he]
  simpa using hdat

/-- Claim C1: for every raw formula and calculation map the resolver's
status is classified exactly as follows: "No Formula" (with the raw
string passed through) for empty input; otherwise "Unresolved
References" exactly when zero substitutions were made and the original
string still matches one of the three reference syntaxes; "Partially
Resolved" exactly when at least one substitution was made and the
cleaned string still matches one of the three syntaxes; and "Success"
in every other case. -/
theorem c1_status_classification (raw : String) (m : List (String × String)) :
    (raw = "" → clean_calculation_formula raw m = (raw, ("No Formula"))) ∧
    (raw ≠ "" →
      (clean_calculation_formula raw m).1 = String.mk (cleanCore raw.data m).1 ∧
      ((clean_calculation_formula raw m).2 = "Unresolved References" ↔
        (cleanCore raw.data m).2 = 0 ∧
          (searchCalcRef raw.data = true ∨ searchAtRef raw.data = true ∨
            searchLongRef raw.data = true)) ∧
      ((clean_calculation_formula raw m).2 = "Partially Resolved" ↔
        0 < (cleanCore raw.data m).2 ∧
          (searchCalcRef (cleanCore raw.data m).1 = true ∨
            searchAtRef (cleanCore raw.data m).1 = true ∨
            searchLongRef (cleanCore raw.data m).1 = true)) ∧
      ((clean_calculation_formula raw m).2 = "Success" ↔
        ¬((cleanCore raw.data m).2 = 0 ∧
            (searchCalcRef raw.data = true ∨ searchAtRef raw.data = true ∨
              searchLongRef raw.data = true)) ∧
        ¬(0 < (cleanCore raw.data m).2 ∧
            (searchCalcRef (cleanCore raw.data m).1 = true ∨
              searchAtRef (cleanCore raw.data m).1 = true ∨
              searchLongRef (cleanCore raw.data m).1 = true)))) := by
  have hUP : ("Unresolved References" : String) ≠ "Partially Resolved" := by decide
  have hUS : ("Unresolved References" : String) ≠ "Success" := by decide
  have hPU : ("Partially Resolved" : String) ≠ "Unresolved References" := by decide
  have hPS : ("Partially Resolved" : String) ≠ "Success" := by decide
  have hSU : ("Success" : String) ≠ "Unresolved References" := by decide
  have hSP : ("Success" : String) ≠ "Partially Resolved" := by decide
  constructor
  · intro h; subst h; simp [clean_calculation_formula]
  · intro h
    rw [clean_status_spec raw m h]
    by_cases hc1 : (cleanCore raw.data m).2 = 0 ∧ searchAnyRef raw.data = true
    · have hnp : ¬(0 < (cleanCore raw.data m).2 ∧
          searchAnyRef (cleanCore raw.data m).1 = true) :=
        fun hx => absurd hx.1 (by rw [hc1.1]; exact Nat.lt_irrefl 0)
      rw [if_pos hc1]
      refine ⟨rfl, iff_of_true rfl ⟨hc1.1, (searchAny_true_iff _).mpr hc1.2⟩,
        iff_of_false hUP ?_, iff_of_false hUS ?_⟩
      · exact fun hx => hnp ⟨hx.1, (searchAny_true_iff _).mp hx.2⟩
      · exact fun hx => hx.1 ⟨hc1.1, (searchAny_true_iff _).mpr hc1.2⟩
    · by_cases hc2 :
          0 < (cleanCore raw.data m).2 ∧ searchAnyRef (cleanCore raw.data m).1 = true
      · rw [if_neg hc1, if_pos hc2]
        refine ⟨rfl, iff_of_false hPU ?_,
          iff_of_true rfl ⟨hc2.1, (searchAny_true_iff _).mpr hc2.2⟩,
          iff_of_false hPS ?_⟩
        · exact fun hx => hc1 ⟨hx.1, (searchAny_true_iff _).mp hx.2⟩
        · exact fun hx => hx.2 ⟨hc2.1, (searchAny_true_iff _).mpr hc2.2⟩
      · rw [if_neg hc1, if_neg hc2]
        refine ⟨rfl, iff_of_false hSU ?_, iff_of_false hSP ?_, iff_of_true rfl ⟨?_, ?_⟩⟩
        · exact fun hx => hc1 ⟨hx.1, (searchAny_true_iff _).mp hx.2⟩
        · exact fun hx => hc2 ⟨hx.1, (searchAny_true_iff _).mp hx.2⟩
        · exact fun hx => hc1 ⟨hx.1, (searchAny_true_iff _).mp hx.2⟩
        · exact fun hx => hc2 ⟨hx.1, (searchAny_true_iff _).mp hx.2⟩

/-- Claim C1 witness: the classification applied to the concrete
formula holding a single brace-style reference with an empty map
yields status "Unresolved References". -/
theorem c1_statuses_witness :
    (clean_calculation_formula ("@\x7b2001\x7d") []).2 = "Unresolved References" :=
  ((c1_status_classification ("@\x7b2001\x7d") []).2 (by decide)).2.1.mpr (by decide)

/-- Claim C2 counterexample: with the map sending identifier
1234567890 to caption "1234567890", every identifier embedded in the
formula "[1234567890]" is a key of the map, yet re-cleaning the
cleaned result does not report "Success" (the substitution reproduces
the reference syntax, and both passes report "Partially Resolved"). -/
theorem c2_counterexample :
    ((refIds (("[1234567890]").data)).all
        (fun i => (dictGet [(("1234567890"), ("1234567890"))] i).isSome)) = true ∧
    (clean_calculation_formula
        (clean_calculation_formula ("[1234567890]")
          [(("1234567890"), ("1234567890"))]).1
        [(("1234567890"), ("1234567890"))]).2 ≠ "Success" := by
  decide

/-- Claim C2 (amended): cleaning is idempotent on success: whenever
`clean_calculation_formula` reports status "Success", cleaning the
cleaned result returns it unchanged, again with status "Success".  The
all-identifiers-resolvable hypothesis of the original claim does not
suffice, because a substituted caption may itself have the shape of a
reference (see the counterexample). -/
theorem c2_idempotent_on_success (raw : String) (m : List (String × String))
    (h : (clean_calculation_formula raw m).2 = "Success") :
    clean_calculation_formula (clean_calculation_formula raw m).1 m =
      ((clean_calculation_formula raw m).1, ("Success")) := by
  by_cases hraw : raw = ""
  · subst hraw
    rw [show clean_calculation_formula ("") m = (("") , ("No Formula")) from by
      simp [clean_calculation_formula]] at h
    have h' : ("No Formula" : String) = "Success" := h
    exact absurd h' (by decide)
  · rw [clean_status_spec raw m hraw] at h ⊢
    by_cases hc1 : (cleanCore raw.data m).2 = 0 ∧ searchAnyRef raw.data = true
    · rw [if_pos hc1] at h
      have h' : ("Unresolved References" : String) = "Success" := h
      exact absurd h' (by decide)
    · by_cases hc2 :
          0 < (cleanCore raw.data m).2 ∧ searchAnyRef (cleanCore raw.data m).1 = true
      · rw [if_neg hc1, if_pos hc2] at h
        have h' : ("Partially Resolved" : String) = "Success" := h
        exact absurd h' (by decide)
      · have hsearch : searchAnyRef (cleanCore raw.data m).1 = false := by
          rcases Nat.eq_zero_or_pos (cleanCore raw.data m).2 with h0 | hp
          · have hcl : (cleanCore raw.data m).1 = raw.data := cleanCore_count_zero _ m h0
            rw [hcl]
            cases hb : searchAnyRef raw.data
            · rfl
            · exact absurd ⟨h0, hb⟩ hc1
          · cases hb : searchAnyRef (cleanCore raw.data m).1
            · rfl
            · exact absurd ⟨hp, hb⟩ hc2
        have hne : (cleanCore raw.data m).1 ≠ [] :=
          cleanCore_ne_nil raw.data m (data_ne_nil raw hraw)
        have hmkne : String.mk (cleanCore raw.data m).1 ≠ "" := mk_ne_empty _ hne
        rw [clean_status_spec (String.mk (cleanCore raw.data m).1) m hmkne]
        have hdat : (String.mk (cleanCore raw.data m).1).data = (cleanCore raw.data m).1 :=
          rfl
        rw [hdat, cleanCore_no_refs _ m hsearch]
        simp [hsearch]

/-- Claim C2 witness: idempotence on the specification's example
formula, whose two references resolve to "Profit" and "Sales". -/
theorem c2_idempotent_witness :
    clean_calculation_formula
        (clean_calculation_formula ("[Calculation_1001]+[Calculation_1002]")
          [(("1001"), ("Profit")), (("1002"), ("Sales"))]).1
        [(("1001"), ("Profit")), (("1002"), ("Sales"))] =
      ((clean_calculation_formula ("[Calculation_1001]+[Calculation_1002]")
          [(("1001"), ("Profit")), (("1002"), ("Sales"))]).1, ("Success")) :=
  c2_idempotent_on_success ("[Calculation_1001]+[Calculation_1002]")
    [(("1001"), ("Profit")), (("1002"), ("Sales"))] (by decide)

/-- Claim C4 (amended): the recorded connection endpoint is the value
of the first of the server, filename, database attributes (in that
order) that is PRESENT on the connection element, even when that value
is empty; it is the empty string when none is present.  A
present-but-empty server attribute therefore wins over a non-empty
filename or database attribute (see the counterexample). -/
theorem c4_endpoint_first_present (conn : Elem) :
    connEndpoint conn = firstPresentAttr conn [("server"), ("filename"), ("database")] := by
  cases hs : conn.getAttr ("server") <;> cases hf : conn.getAttr ("filename") <;>
    cases hd : conn.getAttr ("database") <;>
    simp [connEndpoint, firstPresentAttr, Elem.getAttrD, hs, hf, hd]

/-- Claim C4 counterexample: on a connection element with a
present-but-empty server attribute and filename "data.csv", the
extractor records the empty server value, not the first non-empty
attribute value "data.csv" the claim promises. -/
theorem c4_counterexample :
    connEndpoint c4conn = "" ∧
    firstNonEmptyAttr c4conn [("server"), ("filename"), ("database")] = "data.csv" ∧
    connEndpoint c4conn ≠
      firstNonEmptyAttr c4conn [("server"), ("filename"), ("database")] := by
  decide

/-- Claim C5 counterexample: in `c5doc` the declaration carrying
calculation id "123" that occurs latest in document traversal order
over the merged column/standalone sequence is the standalone one with
caption "B", yet the map recorded by `extract_all_data` holds the
datasource column's caption "A" (the field pass re-writes it after the
standalone pass). -/
theorem c5_counterexample :
    lastWrite ((findallDesc ("column") c5doc).filterMap calcWriteOfColumn ++
        (findallDesc ("calculation") c5doc).filterMap calcWriteOfCalc) ("123") =
      some ("B") ∧
    dictGet (extract_all_data c5doc ("wb.twb")).calculations ("123") = some ("A") := by
  decide

/-- Claim C7 (amended): field-type precedence for a column element: a
nested calculation element yields "Calculated Field", or "Table
Calculation" when the calculation's class attribute contains the
substring "tableau"; otherwise role "measure" yields "Measure",
upgraded to "Aggregated Measure" only when an aggregation attribute is
present with a NON-EMPTY value (a present-but-empty aggregation
attribute does not upgrade; see the counterexample); otherwise
"Dimension". -/
theorem c7_field_type_precedence (col : Elem) :
    (∀ ce, findDesc ("calculation") col = some ce →
      fieldTypeOf col =
        if isSubstr ("tableau").data (ce.getAttrD ("class") ("")).data
        then ("Table Calculation") else ("Calculated Field")) ∧
    (findDesc ("calculation") col = none → col.getAttr ("role") = some ("measure") →
      fieldTypeOf col =
        if col.getAttrD ("aggregation") ("") ≠ "" then ("Aggregated Measure")
        else ("Measure")) ∧
    (findDesc ("calculation") col = none → ¬ col.getAttr ("role") = some ("measure") →
      fieldTypeOf col = "Dimension") := by
  refine ⟨?_, ?_, ?_⟩
  · intro ce hce; simp [fieldTypeOf, hce]
  · intro hn hrole; simp [fieldTypeOf, hn, hrole]
  · intro hn hrole; simp [fieldTypeOf, hn, hrole]

/-- Claim C7 counterexample: a column with role "measure" and a
present-but-empty aggregation attribute stays "Measure": presence of
the aggregation attribute alone does not yield "Aggregated Measure". -/
theorem c7_counterexample :
    (c7col.getAttr ("aggregation")).isSome = true ∧
    fieldTypeOf c7col = "Measure" ∧ fieldTypeOf c7col ≠ "Aggregated Measure" := by
  decide

/-- Claim C7 witness: the measure branch of the precedence applied to
the concrete column `c7col`. -/
theorem c7_field_type_witness :
    fieldTypeOf c7col =
      if c7col.getAttrD ("aggregation") ("") ≠ "" then ("Aggregated Measure")
      else ("Measure") :=
  (c7_field_type_precedence c7col).2.1 rfl rfl

theorem dedupUsageGo_mem :
    ∀ (us : List UsagePair) (seen : List (String × String)) (k : String × String),
      (k ∈ (dedupUsageGo seen us).map (fun u => (u.field, u.worksheet))) ↔
        (k ∈ us.map (fun u => (u.field, u.worksheet)) ∧ k ∉ seen) := by
  intro us
  induction us with
  | nil => intro seen k; simp [dedupUsageGo]
  | cons u t ih =>
    intro seen k
    by_cases hmem : (u.field, u.worksheet) ∈ seen
    · rw [dedupUsageGo, if_pos hmem, ih seen k]
      by_cases hk : k = (u.field, u.worksheet)
      · subst hk; simp [hmem]
      · simp [List.mem_cons, hk]
    · rw [dedupUsageGo, if_neg hmem]
      simp only [List.map_cons, List.mem_cons, ih ((u.field, u.worksheet) :: seen) k]
      by_cases hk : k = (u.field, u.worksheet)
      · subst hk; simp [hmem]
      · simp only [hk, false_or]

theorem dedupUsageGo_nodup :
    ∀ (us : List UsagePair) (seen : List (String × String)),
      ((dedupUsageGo seen us).map (fun u => (u.field, u.worksheet))).Nodup := by
  intro us
  induction us with
  | nil => intro seen; simp [dedupUsageGo]
  | cons u t ih =>
    intro seen
    by_cases hmem : (u.field, u.worksheet) ∈ seen
    · rw [dedupUsageGo, if_pos hmem]; exact ih seen
    · rw [dedupUsageGo, if_neg hmem]
      simp only [List.map_cons, List.nodup_cons]
      refine ⟨?_, ih ((u.field, u.worksheet) :: seen)⟩
      intro hin
      have := (dedupUsageGo_mem t ((u.field, u.worksheet) :: seen) _).mp hin
      exact this.2 (List.mem_cons_self _ _)

/-- Claim C8: the extractor's usage deduplication returns a list whose
length equals the number of distinct (field, worksheet) composite keys
of the input, and which contains each such key exactly once: its key
list has no duplicates and holds exactly the keys of the input. -/
theorem c8_usage_dedup (us : List UsagePair) :
    (dedupUsage us).length =
      ((us.map (fun u => (u.field, u.worksheet))).dedup).length ∧
    ((dedupUsage us).map (fun u => (u.field, u.worksheet))).Nodup ∧
    ∀ k : String × String,
      (k ∈ (dedupUsage us).map (fun u => (u.field, u.worksheet)) ↔
        k ∈ us.map (fun u => (u.field, u.worksheet))) := by
  have hKnodup : ((dedupUsage us).map (fun u => (u.field, u.worksheet))).Nodup :=
    dedupUsageGo_nodup us []
  have hmemK : ∀ k, k ∈ (dedupUsage us).map (fun u => (u.field, u.worksheet)) ↔
      k ∈ us.map (fun u => (u.field, u.worksheet)) := by
    intro k
    rw [dedupUsage, dedupUsageGo_mem us [] k]
    simp
  refine ⟨?_, hKnodup, hmemK⟩
  have hlenK : (dedupUsage us).length =
      ((dedupUsage us).map (fun u => (u.field, u.worksheet))).length := by
    rw [List.length_map]
  rw [hlenK]
  have hfin : ((dedupUsage us).map (fun u => (u.field, u.worksheet))).toFinset =
      ((us.map (fun u => (u.field, u.worksheet))).dedup).toFinset := by
    ext k
    simp only [List.mem_toFinset, List.mem_dedup]
    exact hmemK k
  calc ((dedupUsage us).map (fun u => (u.field, u.worksheet))).length
      = ((dedupUsage us).map (fun u => (u.field, u.worksheet))).toFinset.card :=
        (List.toFinset_card_of_nodup hKnodup).symm
    _ = ((us.map (fun u => (u.field, u.worksheet))).dedup).toFinset.card := by rw [hfin]
    _ = ((us.map (fun u => (u.field, u.worksheet))).dedup).length :=
        List.toFinset_card_of_nodup (List.nodup_dedup _)

/-- Claim C9 counterexample: with no connection record for datasource
"ds1", the emitted row's Connection Alias is the datasource name
"ds1", not the empty string the claim promises. -/
theorem c9_counterexample :
    dictGet c9data.connections ("ds1") = none ∧
    (build_final_output [(("wb.twb"), c9data)]).map
        (fun r => (r.connectionName, r.connectionAlias)) = [(("") , ("ds1"))] ∧
    (("ds1") : String) ≠ "" := by
  decide

/-- Claim C9 witness: the amended statement applied to the concrete
model `c9data` and its single emitted row. -/
theorem c9_missing_connection_witness :
    c9row.connectionName = "" ∧ c9row.connectionAlias = c9field.datasource :=
  c9_missing_connection ("wb.twb") c9data c9field 1 (by decide) c9row (by decide)

/-- Claim C10 witness: the first row emitted for the concrete model
`c10data` carries the name of one of its fields. -/
theorem c10_rows_from_fields_witness :
    ∃ p ∈ [(("wb2.twb"), c10data)], ∃ f ∈ p.2.fields,
      c10row.columnName = f.name ∧ c10row.fileName = p.1 :=
  c10_rows_from_fields [(("wb2.twb"), c10data)] c10row (by decide)

end Tableau
